import Mathlib

/-
  Verification development for the ripit commit-replication tool.

  The repository sources available are src/app.rs (argument/configuration
  parsing), src/util.rs (the confirmation prompt) and tests/tests.rs
  (integration tests).  The replication engine itself (message filter,
  correspondence map, topology walker, replay planner/engine, bootstrap,
  orchestrator) is not among the sources; those parts are modelled from the
  specification, as indicated by the doc comments below.
-/

namespace Ripit

/-! ## Strings and substring matching -/

/-- Boolean test: does the string pat occur as a contiguous substring of s? -/
def containsSub (s pat : String) : Bool :=
  s.toList.tails.any (fun t => pat.toList.isPrefixOf t)

/-- Abstract regular expression over lines: the field core decides whether the
whole of a given character list is matched by the (uncompiled) pattern. -/
structure Pattern where
  core : List Char → Bool

/-- Regex-set membership test as the regex crate's is_match performs it: the
pattern matches the line if its core accepts some contiguous substring. -/
def Pattern.isMatch (p : Pattern) (line : String) : Bool :=
  line.toList.tails.any (fun t => t.inits.any (fun i => p.core i))

/-- Whole-line match: the pattern's core accepts the entire line. -/
def Pattern.matchesWhole (p : Pattern) (line : String) : Bool :=
  p.core line.toList

/-- A literal pattern: the core accepts exactly the given word. -/
def litCore (w : String) : Pattern :=
  Pattern.mk (fun l => l == w.toList)

/-! ## Message Filter

The message filter source is not under src/; the definitions below are
modelled from the specification (section 4.1) and checked against the
expected messages asserted by test_commits_filtering in tests/tests.rs. -/

/-- Modelled from the spec: the filter source is missing from src/.  A line is
dropped when any configured pattern matches it, with substring-match
semantics ("substring match against the uncompiled regex set as
configured"). -/
def dropLine (pats : List Pattern) (line : String) : Bool :=
  pats.any (fun p => p.isMatch line)

/-- Modelled from the spec: the surviving (non-dropped) lines, in order. -/
def keptLines (pats : List Pattern) (lines : List String) : List String :=
  lines.filter (fun l => !dropLine pats l)

/-- Modelled from the spec: the operational line loop of section 4.1 steps 1-3.
It walks the surviving lines tracking whether a non-blank line was already
emitted (started) and whether blank lines are pending (pending); a pending
blank is emitted as a single blank line only when another non-blank line
follows, which collapses runs of blank lines and removes leading and trailing
blank lines, as the messages asserted by test_commits_filtering show. -/
def bodyLoop : List String → Bool → Bool → List String
  | [], _, _ => []
  | l :: rest, started, pending =>
    if l = "" then bodyLoop rest started true
    else (if pending && started then [""] else []) ++ l :: bodyLoop rest true false

/-- The provenance marker line binding a local commit to its remote origin. -/
def markerLine (id : String) : String :=
  "rip-it: " ++ id

/-- Modelled from the spec: the full rewritten message of a replayed commit,
as its list of lines: filtered body, one blank separator, marker line last. -/
def filterMsg (pats : List Pattern) (lines : List String) (id : String) : List String :=
  bodyLoop (keptLines pats lines) false false ++ ["", markerLine id]

/-- Modelled from the spec: the message of an automatically cherry-picked
(uprooted) commit: the filtered body, one blank separator, then the
annotation line and the marker line. -/
def cherryMsg (pats : List Pattern) (lines : List String) (id : String) : List String :=
  bodyLoop (keptLines pats lines) false false ++ ["", "(uprooted)", markerLine id]

/-! ### Declarative reformulation of the body computation (the spec's words) -/

/-- Collapse every run of two or more consecutive blank lines into one. -/
def collapseBlanks : List String → List String
  | [] => []
  | [l] => [l]
  | a :: b :: rest =>
    if a = "" ∧ b = "" then collapseBlanks (b :: rest)
    else a :: collapseBlanks (b :: rest)

/-- Remove leading blank lines. -/
def stripLead (lines : List String) : List String :=
  lines.dropWhile (fun l => l = "")

/-- Remove trailing blank lines. -/
def stripTrail : List String → List String
  | [] => []
  | l :: rest =>
    match stripTrail rest with
    | [] => if l = "" then [] else [l]
    | r => l :: r

/-- The claimed message shape taken literally: collapse runs of blank lines,
remove leading blank lines only, then append one blank line and the marker. -/
def claimedMsg (pats : List Pattern) (lines : List String) (id : String) : List String :=
  stripLead (collapseBlanks (keptLines pats lines)) ++ ["", markerLine id]

/-- The amended message shape: additionally remove trailing blank lines, so
that exactly one blank line separates the body from the marker. -/
def specMsg (pats : List Pattern) (lines : List String) (id : String) : List String :=
  stripTrail (stripLead (collapseBlanks (keptLines pats lines))) ++ ["", markerLine id]

/-! ## Data model and replication engine

The engine sources (correspondence map, topology walker, replay
planner/engine, bootstrap, orchestrator, error reporting) are not under src/;
everything below is modelled from the specification sections 3-4 and 7, and
cross-checked against the behavior asserted by tests/tests.rs. -/

/-- Modelled from the spec: the error taxonomy of section 7 (the error source
file is missing from src/). -/
inductive Err where
  | localChanges
  | branchMissing (name : String)
  | missingBootstrap
  | unknownParent (commit parent : String)
  | conflicts (commits : List String)
  | cacheCorrupt
deriving DecidableEq

/-- Concatenation of a list of strings. -/
def joinAll : List String → String
  | [] => ""
  | s :: rest => s ++ joinAll rest

/-- Modelled from the spec: the reported error texts, keeping the phrases the
spec records ("Aborted", "cannot be found in the local repository", "due to
conflicts"); the reporting source is missing from src/. -/
def renderErr : Err → String
  | Err.localChanges => "Aborted: there are local changes in the repository"
  | Err.branchMissing b => "branch " ++ b ++ " cannot be found"
  | Err.missingBootstrap => "no bootstrap commit found, please run with --bootstrap"
  | Err.unknownParent c p =>
    ("failed to synchronize commit " ++ c ++ ": its parent " ++ p ++ " ") ++
      "cannot be found in the local repository"
  | Err.conflicts cs => ("failed to synchronize " ++ joinAll cs ++ " ") ++ "due to conflicts"
  | Err.cacheCorrupt => "the ripit cache file is corrupted"

/-- A commit record: id, ordered parents, message (as its list of lines) and
an opaque tree handle. -/
structure Commit where
  id : String
  parents : List String
  message : List String
  tree : Nat
deriving DecidableEq

/-- Lookup of a commit by id in a commit store. -/
def findCommit (repo : List Commit) (id : String) : Option Commit :=
  repo.find? (fun d => d.id == id)

/-- Ids reachable from a commit id (including itself), fuel-bounded. -/
def reach (repo : List Commit) : Nat → String → List String
  | 0, _ => []
  | fuel + 1, id =>
    id :: (match findCommit repo id with
      | none => []
      | some c => (c.parents.map (reach repo fuel)).flatten)

/-- Remote ids recorded in the correspondence map, in insertion order. -/
def knownRemotes (M : List (String × String)) : List String :=
  M.map (fun e => e.1)

/-- Modelled from the spec: ids at or below the known frontier.  The walker
enumerates the remote commits reachable from the remote tip but not yet
represented locally; commits reachable from a known commit are behind the
frontier and are not enumerated again (this is what makes UnknownParent
possible, as test_uproot_sync exercises). -/
def hiddenIds (repo : List Commit) (M : List (String × String)) : List String :=
  ((knownRemotes M).map (reach repo (repo.length + 1))).flatten

/-- The walker's stopping predicate: known commits and their ancestors. -/
def stopAt (repo : List Commit) (M : List (String × String)) (id : String) : Bool :=
  (knownRemotes M).contains id || (hiddenIds repo M).contains id

/-- Modelled from the spec: depth-first post-order traversal of the ancestors
of a commit id, stopping at the frontier and at already-seen commits.  A
commit is emitted after its parents, giving a topological replay order. -/
def walkGo (repo : List Commit) (stop : String → Bool) :
    Nat → String → List String → List Commit × List String
  | 0, _, seen => ([], seen)
  | fuel + 1, id, seen =>
    if stop id || seen.contains id then ([], seen)
    else
      match findCommit repo id with
      | none => ([], id :: seen)
      | some c =>
        let r := c.parents.foldl
          (fun acc p =>
            let r2 := walkGo repo stop fuel p acc.2
            (acc.1 ++ r2.1, r2.2))
          (([] : List Commit), id :: seen)
        (r.1 ++ [c], r.2)

/-- Modelled from the spec: the Topology Walker output for a remote tip. -/
def walk (repo : List Commit) (M : List (String × String)) (tip : String) : List Commit :=
  (walkGo repo (stopAt repo M) (repo.length + 1) tip []).1

/-- Modelled from the spec: the engine state: the correspondence map in
insertion order, the local object store, the local branch tip, the cache file
contents, a fresh-id counter, the cleanliness of the working tree, and the
remote ids that were replayed by cherry-pick (uprooted) during this run. -/
structure State where
  mapping : List (String × String)
  locals : List Commit
  branch : Option String
  cache : String
  counter : Nat
  dirty : Bool
  uprooted : List String
deriving DecidableEq

/-- Constant-time style lookup local_of(remote) on the insertion list. -/
def lookupRemote (M : List (String × String)) (r : String) : Option String :=
  (M.find? (fun e => e.1 == r)).map (fun e => e.2)

/-- Fresh local commit id derived from the state counter. -/
def freshId (st : State) : String :=
  "local-" ++ toString st.counter

/-- The local counterparts of those parents present in the map, in order. -/
def mappedParents (M : List (String × String)) (ps : List String) : List String :=
  ps.filterMap (fun p => lookupRemote M p)

/-- The parents that have no local counterpart, in order. -/
def missingParents (M : List (String × String)) (ps : List String) : List String :=
  ps.filter (fun p => (lookupRemote M p).isNone)

/-- The current branch tip as a parent list. -/
def tipParents (st : State) : List String :=
  match st.branch with
  | some t => [t]
  | none => []

/-- Record a newly created local commit: store it, append the mapping entry,
advance the branch reference, bump the id counter. -/
def addLocal (st : State) (remoteId : String) (c : Commit) (markUprooted : Bool) : State :=
  { st with
    locals := c :: st.locals,
    mapping := st.mapping ++ [(remoteId, c.id)],
    branch := some c.id,
    counter := st.counter + 1,
    uprooted := if markUprooted then remoteId :: st.uprooted else st.uprooted }

/-- All parents exist and every one of them was replayed by cherry-pick. -/
def allParentsUprooted (st : State) (c : Commit) : Bool :=
  !c.parents.isEmpty && c.parents.all (fun p => st.uprooted.contains p)

/-- Modelled from the spec: the Replay Planner and Engine step for one remote
commit (sections 4.4 and 4.5; the engine source is missing from src/).  A
commit with every parent known is copied with its parents mapped; a commit
with a missing parent is cherry-picked onto the current tip with the
uprooted annotation, allowed only under the uproot option, otherwise the
branch fails with UnknownParent naming the first missing parent.  A commit
all of whose parents were themselves cherry-picked continues the uprooted
chain (as test_uproot_sync and test_resync_uprooted_merge exercise).
Tree application is taken as conflict-free; conflict detection needs tree
semantics outside the claims under proof. -/
def replayOne (uprootOpt : Bool) (pats : List Pattern) (st : State) (c : Commit) :
    Except Err State :=
  match missingParents st.mapping c.parents with
  | [] =>
    if allParentsUprooted st c then
      let d : Commit :=
        { id := freshId st, parents := mappedParents st.mapping c.parents,
          message := cherryMsg pats c.message c.id, tree := c.tree }
      Except.ok (addLocal st c.id d true)
    else
      let d : Commit :=
        { id := freshId st, parents := mappedParents st.mapping c.parents,
          message := filterMsg pats c.message c.id, tree := c.tree }
      Except.ok (addLocal st c.id d false)
  | p :: _ =>
    if uprootOpt then
      let known := mappedParents st.mapping c.parents
      let d : Commit :=
        { id := freshId st, parents := if known.isEmpty then tipParents st else known,
          message := cherryMsg pats c.message c.id, tree := c.tree }
      Except.ok (addLocal st c.id d true)
    else Except.error (Err.unknownParent c.id p)

/-- Modelled from the spec: strictly ordered replay of the walker sequence;
on a failure the state reached so far is kept (commits already created are
durable) and the rest of the sequence is not processed. -/
def replayAll (uprootOpt : Bool) (pats : List Pattern) :
    State → List Commit → State × Option Err
  | st, [] => (st, none)
  | st, c :: cs =>
    match replayOne uprootOpt pats st c with
    | Except.ok st1 => replayAll uprootOpt pats st1 cs
    | Except.error e => (st, some e)

/-- Modelled from the spec: the cache file rendering: the ordered insertion
list of local commit ids, one id per line, newline terminated. -/
def cacheStr (M : List (String × String)) : String :=
  joinAll (M.map (fun e => e.2 ++ "\n"))

/-- Modelled from the spec: one branch replication: pre-check the working
tree, walk, replay; only on success is the cache file rewritten. -/
def replicateBranch (repo : List Commit) (uprootOpt : Bool) (pats : List Pattern)
    (tip : String) (st : State) : State × Option Err :=
  if st.dirty then (st, some Err.localChanges)
  else
    match replayAll uprootOpt pats st (walk repo st.mapping tip) with
    | (st1, none) => ({ st1 with cache := cacheStr st1.mapping }, none)
    | (st1, some e) => (st1, some e)

/-- Modelled from the spec: the bootstrap action (section 4.6): a single
synthetic commit holding the remote tip's tree, parented on the current
local head when one exists, seeding the map and the cache file. -/
def bootstrapRun (repo : List Commit) (tip : String) (st : State) : State × Option Err :=
  if st.dirty then (st, some Err.localChanges)
  else
    match findCommit repo tip with
    | none => (st, some (Err.branchMissing tip))
    | some c =>
      let d : Commit :=
        { id := freshId st,
          parents := tipParents st,
          message := ["Bootstrap repository from " ++ tip, "", markerLine tip],
          tree := c.tree }
      let st1 := addLocal st tip d false
      ({ st1 with cache := cacheStr st1.mapping }, none)

/-- A line carrying the provenance marker. -/
def hasMarkerLine (l : String) : Bool :=
  "rip-it: ".toList.isPrefixOf l.toList

/-- A message bearing a provenance marker on some line. -/
def hasMarker (lines : List String) : Bool :=
  lines.any hasMarkerLine

/-- Every mapped local id resolves to a stored local commit bearing a
provenance marker. -/
def Resolved (st : State) : Prop :=
  ∀ e ∈ st.mapping, ∃ c, c ∈ st.locals ∧ c.id = e.2 ∧ hasMarker c.message = true

/-- Cache and map consistency: the cache file is the rendering of the
insertion list, and every mapped local id resolves to a stored local commit
bearing a provenance marker. -/
def WFState (st : State) : Prop :=
  st.cache = cacheStr st.mapping ∧ Resolved st

/-! ## Argument and configuration parsing (embedded from src/app.rs) -/

/-- The YAML configuration record of src/app.rs (struct YamlCfg). -/
structure YamlCfg where
  repo : Option String
  remote : String
  branch : Option String
  branches : Option (List String)
  filters : Option (List String)
deriving DecidableEq

/-- A branch: symbolic name and full reference path (src/app.rs struct Branch). -/
structure Branch where
  name : String
  refname : String
deriving DecidableEq

/-- A compiled regex set, abstracted to its pattern list. -/
structure RegexSet where
  patterns : List Pattern

/-- The engine options produced by parsing (src/app.rs struct Options). -/
structure Options where
  repo : String
  remote : String
  branches : List Branch
  commit_msg_filters : RegexSet
  bootstrap : Bool
  uproot : Bool
  verbose : Bool
  yes : Bool
  fetch : Bool

/-- The command-line flag values as resolved by clap in src/app.rs. -/
structure CliMatches where
  config_file : String
  bootstrap : Bool
  uproot : Bool
  nofetch : Bool
  quiet : Bool
  yes : Bool
deriving DecidableEq

/-- The configuration error cases surfaced by parse_args in src/app.rs. -/
inductive CfgError where
  | failedOpenCfg (path : String)
  | failedParseCfg (path : String)
  | invalidConfig (field : String)
deriving DecidableEq

/-- The configuration-handling part of parse_args (src/app.rs lines 122-179).
The three fallible collaborators, opening the file, parsing it as YAML and
compiling the regex set, are passed as oracle parameters; the control flow,
the defaulting of the branch list and the branch reference names follow the
source. -/
def parse_args (m : CliMatches) (openFile : String → Except String String)
    (parseYaml : String → Except String YamlCfg)
    (regexSetNew : List String → Except String RegexSet) : Except CfgError Options :=
  match openFile m.config_file with
  | Except.error _ => Except.error (CfgError.failedOpenCfg m.config_file)
  | Except.ok file =>
    match parseYaml file with
    | Except.error _ => Except.error (CfgError.failedParseCfg m.config_file)
    | Except.ok cfg =>
      let branch := cfg.branch.getD "master"
      let branches0 := cfg.branches.getD []
      let branches1 := if branches0.isEmpty then [branch] else branches0
      let branches := branches1.map (fun name => Branch.mk name ("refs/heads/" ++ name))
      let filters := cfg.filters.getD []
      match regexSetNew filters with
      | Except.error _ => Except.error (CfgError.invalidConfig "filter")
      | Except.ok set =>
        Except.ok
          { repo := cfg.repo.getD ".", remote := cfg.remote, branches := branches,
            commit_msg_filters := set, bootstrap := m.bootstrap, uproot := m.uproot,
            verbose := !m.quiet, yes := m.yes, fetch := !m.nofetch }

/-! ## The confirmation prompt (embedded from src/util.rs) -/

/-- Whitespace trimming from both ends, the behavior of the trim used on the
read line, done at character level so that it is fully reducible. -/
def trimStr (s : String) : String :=
  String.mk (((s.toList.dropWhile Char.isWhitespace).reverse.dropWhile
    Char.isWhitespace).reverse)

/-- One interaction with standard input: a line was read, or reading failed. -/
inductive InEvent where
  | line (s : String)
  | err
deriving DecidableEq

/-- confirm_action of src/util.rs over the sequence of input events: a line
trimming to y or Y confirms, one trimming to n or N declines, a read failure
declines, and any other line re-prompts; none means the event sequence ran
out while the loop was still prompting. -/
def confirm_action : List InEvent → Option Bool
  | [] => none
  | InEvent.err :: _ => some false
  | InEvent.line s :: rest =>
    if trimStr s = "y" ∨ trimStr s = "Y" then some true
    else if trimStr s = "n" ∨ trimStr s = "N" then some false
    else confirm_action rest

/-- An input event on which the prompt loop continues without returning. -/
def indecisiveB : InEvent → Bool
  | InEvent.line s => !(trimStr s == "y" || trimStr s == "Y" || trimStr s == "n" || trimStr s == "N")
  | InEvent.err => false

/-! ## Concrete data used by the witnesses -/

/-- A remote commit with a one-line message, for concrete scenarios. -/
def rcommit (i : String) (ps : List String) (t : Nat) : Commit :=
  Commit.mk i ps [i] t

/-- The remote shape of test_uproot_sync: c4 below the frontier, the mainline
c4-c5, the side chain c4-c6-c7, and the merge c8 of c5 and c7. -/
def repoW : List Commit :=
  [rcommit "c4" [] 4, rcommit "c5" ["c4"] 5, rcommit "c6" ["c4"] 6,
   rcommit "c7" ["c6"] 7, rcommit "c8" ["c5", "c7"] 8]

/-- The empty clean engine state. -/
def st0 : State :=
  State.mk [] [] none "" 0 false []

/-- The empty dirty engine state. -/
def stDirty : State :=
  State.mk [] [] none "" 0 true []

/-- The state after bootstrapping repoW at c5. -/
def stW : State :=
  (bootstrapRun repoW "c5" st0).1

/-- A root commit whose message ends with a blank line. -/
def cBlank : Commit :=
  Commit.mk "rA" [] ["a", ""] 0

/-- A remote commit with one unknown parent (the c6 of repoW). -/
def cW6 : Commit :=
  rcommit "c6" ["c4"] 6

/-- The state after replaying cW6 with the uproot option from stW. -/
def stW6 : State :=
  match replayOne true [] stW cW6 with
  | Except.ok s => s
  | Except.error _ => st0

/-- A parentless remote commit with a plain message. -/
def cB2 : Commit :=
  rcommit "rB" [] 1

/-- The state after replaying cB2 from the empty state. -/
def stB2 : State :=
  match replayOne false [] st0 cB2 with
  | Except.ok s => s
  | Except.error _ => st0

/-- The state after replaying cBlank from the empty state. -/
def stBlank1 : State :=
  match replayOne false [] st0 cBlank with
  | Except.ok s => s
  | Except.error _ => st0

/-- A configuration with an explicitly empty branches list. -/
def cfgEmptyBranches : YamlCfg :=
  YamlCfg.mk none "origin" none (some []) none

/-- A configuration listing two branches. -/
def cfgTwoBranches : YamlCfg :=
  YamlCfg.mk none "origin" none (some ["b1", "b2"]) none

/-- A configuration with every optional field absent. -/
def cfgBare : YamlCfg :=
  YamlCfg.mk none "origin" none none none

/-- Command-line matches naming only the configuration file. -/
def mCli : CliMatches :=
  CliMatches.mk "ripit.yml" false false false false false

/-- An open oracle that succeeds with empty file contents. -/
def oFok : String → Except String String := fun _ => Except.ok ""

/-- An open oracle that fails. -/
def oFbad : String → Except String String := fun _ => Except.error "no such file"

/-- A YAML oracle returning a fixed configuration. -/
def pYof (cfg : YamlCfg) : String → Except String YamlCfg := fun _ => Except.ok cfg

/-- A YAML oracle that fails. -/
def pYbad : String → Except String YamlCfg := fun _ => Except.error "invalid yaml"

/-- A regex-set compiler that accepts every pattern list. -/
def rNok : List String → Except String RegexSet := fun _ => Except.ok (RegexSet.mk [])

/-- A regex-set compiler that rejects every pattern list. -/
def rNbad : List String → Except String RegexSet := fun _ => Except.error "invalid regex"

/-! ## Lemmas about the message filter -/

theorem stripTrail_cons_ne (l : String) (rest : List String) (hl : l ≠ "") :
    stripTrail (l :: rest) = l :: stripTrail rest := by
  cases h : stripTrail rest with
  | nil => simp [stripTrail, h, hl]
  | cons a r => simp [stripTrail, h]

theorem stripTrail_cons_of_ne_nil (x : String) (X : List String) (h : stripTrail X ≠ []) :
    stripTrail (x :: X) = x :: stripTrail X := by
  cases hh : stripTrail X with
  | nil => exact absurd hh h
  | cons a r => simp [stripTrail, hh]

theorem collapseBlanks_cons_ne (l : String) (rest : List String) (hl : l ≠ "") :
    collapseBlanks (l :: rest) = l :: collapseBlanks rest := by
  cases rest with
  | nil => simp [collapseBlanks]
  | cons b r => simp [collapseBlanks, hl]

theorem collapseBlanks_blank_blank (rest : List String) :
    collapseBlanks ("" :: "" :: rest) = collapseBlanks ("" :: rest) := by
  simp [collapseBlanks]

theorem bodyLoop_false_pending (ls : List String) (p : Bool) :
    bodyLoop ls false p = bodyLoop ls false false := by
  cases ls with
  | nil => rfl
  | cons l rest =>
    by_cases hl : l = "" <;> simp [bodyLoop, hl]

theorem bodyLoop_true (ls : List String) :
    bodyLoop ls true false = stripTrail (collapseBlanks ls) ∧
    bodyLoop ls true true = stripTrail (collapseBlanks ("" :: ls)) := by
  induction ls with
  | nil =>
    constructor <;> simp [bodyLoop, collapseBlanks, stripTrail]
  | cons l rest ih =>
    by_cases hl : l = ""
    · subst hl
      constructor
      · show bodyLoop rest true true = stripTrail (collapseBlanks ("" :: rest))
        exact ih.2
      · show bodyLoop rest true true = stripTrail (collapseBlanks ("" :: "" :: rest))
        rw [collapseBlanks_blank_blank]
        exact ih.2
    · constructor
      · show bodyLoop (l :: rest) true false = stripTrail (collapseBlanks (l :: rest))
        rw [collapseBlanks_cons_ne l rest hl, stripTrail_cons_ne l _ hl]
        simp [bodyLoop, hl, ih.1]
      · show bodyLoop (l :: rest) true true = stripTrail (collapseBlanks ("" :: l :: rest))
        have hcol : collapseBlanks ("" :: l :: rest) = "" :: l :: collapseBlanks rest := by
          simp [collapseBlanks, hl, collapseBlanks_cons_ne l rest hl]
        rw [hcol]
        have hne : stripTrail (l :: collapseBlanks rest) = l :: stripTrail (collapseBlanks rest) :=
          stripTrail_cons_ne l _ hl
        rw [stripTrail_cons_of_ne_nil _ _ (by rw [hne]; simp), hne]
        simp [bodyLoop, hl, ih.1]

theorem stripLead_collapse_blank (rest : List String) :
    stripLead (collapseBlanks ("" :: rest)) = stripLead (collapseBlanks rest) := by
  cases rest with
  | nil => simp [collapseBlanks, stripLead]
  | cons b r =>
    by_cases hb : b = ""
    · subst hb
      rw [collapseBlanks_blank_blank]
    · have h1 : collapseBlanks ("" :: b :: r) = "" :: collapseBlanks (b :: r) := by
        simp [collapseBlanks, hb]
      rw [h1, collapseBlanks_cons_ne b r hb]
      simp [stripLead, List.dropWhile, hb]

/-- The operational body loop computes the declarative normal form: runs of
blank lines collapsed, leading and trailing blank lines removed. -/
theorem bodyLoop_spec (ls : List String) :
    bodyLoop ls false false = stripTrail (stripLead (collapseBlanks ls)) := by
  induction ls with
  | nil => simp [bodyLoop, collapseBlanks, stripLead, stripTrail]
  | cons l rest ih =>
    by_cases hl : l = ""
    · subst hl
      show bodyLoop rest false true = _
      rw [bodyLoop_false_pending, ih, stripLead_collapse_blank]
    · rw [collapseBlanks_cons_ne l rest hl]
      have hsl : stripLead (l :: collapseBlanks rest) = l :: collapseBlanks rest := by
        simp [stripLead, List.dropWhile, hl]
      rw [hsl, stripTrail_cons_ne l _ hl]
      simp [bodyLoop, hl, (bodyLoop_true rest).1]

/-- The operational filter equals the declarative description amended with
trailing-blank removal. -/
theorem filterMsg_eq_specMsg (pats : List Pattern) (lines : List String) (id : String) :
    filterMsg pats lines id = specMsg pats lines id := by
  rw [filterMsg, specMsg, bodyLoop_spec]

/-! ## Lemmas about strings, markers and the cache rendering -/

theorem toList_append (a b : String) : (a ++ b).toList = a.toList ++ b.toList := by
  simp [String.toList, String.data_append]

theorem containsSub_append_self (a b : String) : containsSub (a ++ b) b = true := by
  rw [containsSub, List.any_eq_true]
  refine ⟨b.toList, ?_, ?_⟩
  · rw [List.mem_tails, toList_append]
    exact ⟨a.toList, rfl⟩
  · exact List.isPrefixOf_iff_prefix.2 (List.prefix_refl _)

theorem hasMarkerLine_markerLine (id : String) : hasMarkerLine (markerLine id) = true := by
  rw [hasMarkerLine, markerLine, toList_append]
  exact List.isPrefixOf_iff_prefix.2 (List.prefix_append _ _)

theorem hasMarker_filterMsg (pats : List Pattern) (lines : List String) (id : String) :
    hasMarker (filterMsg pats lines id) = true := by
  rw [hasMarker, List.any_eq_true]
  exact ⟨markerLine id, by simp [filterMsg], hasMarkerLine_markerLine id⟩

theorem hasMarker_cherryMsg (pats : List Pattern) (lines : List String) (id : String) :
    hasMarker (cherryMsg pats lines id) = true := by
  rw [hasMarker, List.any_eq_true]
  exact ⟨markerLine id, by simp [cherryMsg], hasMarkerLine_markerLine id⟩

theorem joinAll_append (a b : List String) : joinAll (a ++ b) = joinAll a ++ joinAll b := by
  induction a with
  | nil => simp [joinAll]
  | cons s rest ih => simp [joinAll, ih, String.append_assoc]

theorem cacheStr_append (M N : List (String × String)) :
    cacheStr (M ++ N) = cacheStr M ++ cacheStr N := by
  rw [cacheStr, cacheStr, cacheStr, List.map_append, joinAll_append]

/-! ## Lemmas about the correspondence map -/

theorem lookupRemote_append_of_some (M N : List (String × String)) (r l : String)
    (h : lookupRemote M r = some l) : lookupRemote (M ++ N) r = some l := by
  rw [lookupRemote] at h
  cases hf : M.find? (fun e => e.1 == r) with
  | none => rw [hf] at h; simp at h
  | some e =>
    rw [hf] at h
    rw [lookupRemote, List.find?_append, hf]
    exact h

theorem lookupRemote_isSome_append (M N : List (String × String)) (r : String)
    (h : (lookupRemote M r).isSome = true) : (lookupRemote (M ++ N) r).isSome = true := by
  obtain ⟨l, hl⟩ := Option.isSome_iff_exists.1 h
  rw [lookupRemote_append_of_some M N r l hl]
  rfl

theorem lookupRemote_append_singleton (M : List (String × String)) (r l : String) :
    (lookupRemote (M ++ [(r, l)]) r).isSome = true := by
  rw [lookupRemote, List.find?_append]
  cases hf : M.find? (fun e => e.1 == r) with
  | some e => simp
  | none => simp [List.find?]

/-! ## Lemmas about the replay engine -/

theorem replayOne_ok (u : Bool) (pats : List Pattern) (st : State) (c : Commit) (st1 : State)
    (h : replayOne u pats st c = Except.ok st1) :
    ∃ d b, st1 = addLocal st c.id d b ∧ d.id = freshId st ∧
      (d.message = filterMsg pats c.message c.id ∨ d.message = cherryMsg pats c.message c.id) := by
  rw [replayOne] at h
  cases hm : missingParents st.mapping c.parents with
  | nil =>
    rw [hm] at h
    by_cases hu : allParentsUprooted st c = true
    · simp only [hu, if_true] at h
      simp only [Except.ok.injEq] at h
      exact ⟨_, _, h.symm, rfl, Or.inr rfl⟩
    · simp only [Bool.not_eq_true] at hu
      simp only [hu, Bool.false_eq_true, if_false] at h
      simp only [Except.ok.injEq] at h
      exact ⟨_, _, h.symm, rfl, Or.inl rfl⟩
  | cons p ps =>
    rw [hm] at h
    by_cases huo : u = true
    · simp only [huo, if_true] at h
      simp only [Except.ok.injEq] at h
      exact ⟨_, _, h.symm, rfl, Or.inr rfl⟩
    · simp only [Bool.not_eq_true] at huo
      simp only [huo, Bool.false_eq_true, if_false] at h
      simp at h

theorem addLocal_mapping (st : State) (r : String) (c : Commit) (b : Bool) :
    (addLocal st r c b).mapping = st.mapping ++ [(r, c.id)] := rfl

theorem addLocal_locals (st : State) (r : String) (c : Commit) (b : Bool) :
    (addLocal st r c b).locals = c :: st.locals := rfl

theorem addLocal_dirty (st : State) (r : String) (c : Commit) (b : Bool) :
    (addLocal st r c b).dirty = st.dirty := rfl

theorem replayAll_dirty (u : Bool) (pats : List Pattern) :
    ∀ (cs : List Commit) (st : State), ((replayAll u pats st cs).1).dirty = st.dirty := by
  intro cs
  induction cs with
  | nil => intro st; rfl
  | cons c cs ih =>
    intro st
    cases hr : replayOne u pats st c with
    | ok st1 =>
      have h1 : replayAll u pats st (c :: cs) = replayAll u pats st1 cs := by
        simp [replayAll, hr]
      rw [h1, ih st1]
      obtain ⟨d, b, rfl, -, -⟩ := replayOne_ok u pats st c st1 hr
      rfl
    | error e => simp [replayAll, hr]

theorem replayAll_mapping (u : Bool) (pats : List Pattern) :
    ∀ (cs : List Commit) (st : State),
      ∃ N, ((replayAll u pats st cs).1).mapping = st.mapping ++ N := by
  intro cs
  induction cs with
  | nil => intro st; exact ⟨[], by simp [replayAll]⟩
  | cons c cs ih =>
    intro st
    cases hr : replayOne u pats st c with
    | ok st1 =>
      have h1 : replayAll u pats st (c :: cs) = replayAll u pats st1 cs := by
        simp [replayAll, hr]
      obtain ⟨N, hN⟩ := ih st1
      obtain ⟨d, b, rfl, -, -⟩ := replayOne_ok u pats st c st1 hr
      exact ⟨(c.id, d.id) :: N, by rw [h1, hN, addLocal_mapping]; simp⟩
    | error e => exact ⟨[], by simp [replayAll, hr]⟩

theorem replayAll_ok_mapped (u : Bool) (pats : List Pattern) :
    ∀ (cs : List Commit) (st : State), ((replayAll u pats st cs).2 = none) →
      ∀ c ∈ cs, (lookupRemote ((replayAll u pats st cs).1).mapping c.id).isSome = true := by
  intro cs
  induction cs with
  | nil => intro st _ c hc; simp at hc
  | cons c0 cs ih =>
    intro st hok c hc
    cases hr : replayOne u pats st c0 with
    | error e => simp [replayAll, hr] at hok
    | ok st1 =>
      have h1 : replayAll u pats st (c0 :: cs) = replayAll u pats st1 cs := by
        simp [replayAll, hr]
      rw [h1] at hok ⊢
      rcases List.mem_cons.1 hc with hcc | hcc
      · subst hcc
        obtain ⟨N, hN⟩ := replayAll_mapping u pats cs st1
        rw [hN]
        obtain ⟨d, b, rfl, -, -⟩ := replayOne_ok u pats st c st1 hr
        rw [addLocal_mapping]
        exact lookupRemote_isSome_append _ _ _
          (lookupRemote_append_singleton st.mapping c.id d.id)
      · exact ih st1 hok c hcc

theorem replayOne_resolve (u : Bool) (pats : List Pattern) (st : State) (c : Commit)
    (st1 : State) (h : replayOne u pats st c = Except.ok st1) (hres : Resolved st) :
    Resolved st1 := by
  obtain ⟨d, b, rfl, -, hmsg⟩ := replayOne_ok u pats st c st1 h
  intro e he
  rw [addLocal_mapping] at he
  rcases List.mem_append.1 he with he1 | he1
  · obtain ⟨d1, hd1, hd2, hd3⟩ := hres e he1
    exact ⟨d1, by rw [addLocal_locals]; exact List.mem_cons_of_mem _ hd1, hd2, hd3⟩
  · have he2 : e = (c.id, d.id) := by simpa using he1
    subst he2
    refine ⟨d, by rw [addLocal_locals]; exact List.mem_cons_self _ _, rfl, ?_⟩
    rcases hmsg with hm1 | hm1
    · rw [hm1]; exact hasMarker_filterMsg _ _ _
    · rw [hm1]; exact hasMarker_cherryMsg _ _ _

theorem replayAll_resolve (u : Bool) (pats : List Pattern) :
    ∀ (cs : List Commit) (st : State), Resolved st → Resolved ((replayAll u pats st cs).1) := by
  intro cs
  induction cs with
  | nil => intro st h; exact h
  | cons c cs ih =>
    intro st h
    cases hr : replayOne u pats st c with
    | ok st1 =>
      have h1 : replayAll u pats st (c :: cs) = replayAll u pats st1 cs := by
        simp [replayAll, hr]
      rw [h1]
      exact ih st1 (replayOne_resolve u pats st c st1 hr h)
    | error e => simpa [replayAll, hr] using h

/-! ## Lemmas about the walker -/

theorem findCommit_id (repo : List Commit) (i : String) (c : Commit)
    (h : findCommit repo i = some c) : c.id = i := by
  have h1 := List.find?_some h
  simpa using h1

theorem walk_eq_nil_of_stop (repo : List Commit) (M : List (String × String)) (tip : String)
    (h : stopAt repo M tip = true) : walk repo M tip = [] := by
  simp [walk, walkGo, h]

theorem walk_eq_nil_of_none (repo : List Commit) (M : List (String × String)) (tip : String)
    (h1 : stopAt repo M tip = false) (h2 : findCommit repo tip = none) :
    walk repo M tip = [] := by
  simp [walk, walkGo, h1, h2]

theorem walk_mem (repo : List Commit) (M : List (String × String)) (tip : String) (c : Commit)
    (h1 : stopAt repo M tip = false) (h2 : findCommit repo tip = some c) :
    c ∈ walk repo M tip := by
  simp [walk, walkGo, h1, h2]

theorem stopAt_of_known (repo : List Commit) (M : List (String × String)) (tip : String)
    (h : (lookupRemote M tip).isSome = true) : stopAt repo M tip = true := by
  obtain ⟨l, hl⟩ := Option.isSome_iff_exists.1 h
  rw [lookupRemote] at hl
  cases hf : M.find? (fun e => e.1 == tip) with
  | none => rw [hf] at hl; simp at hl
  | some e =>
    have he : e ∈ M := List.mem_of_find?_eq_some hf
    have he1 : e.1 = tip := by simpa using List.find?_some hf
    have hmem : tip ∈ knownRemotes M := by
      rw [knownRemotes]
      exact List.mem_map.2 ⟨e, he, he1⟩
    rw [stopAt]
    simp
    exact Or.inl hmem

/-! ## No-op replication when the tip is already known -/

theorem replicateBranch_noop (repo : List Commit) (u : Bool) (pats : List Pattern)
    (tip : String) (st : State) (h1 : (lookupRemote st.mapping tip).isSome = true)
    (h2 : st.dirty = false) (h3 : st.cache = cacheStr st.mapping) :
    replicateBranch repo u pats tip st = (st, none) := by
  rw [replicateBranch]
  simp only [h2, Bool.false_eq_true, if_false]
  rw [walk_eq_nil_of_stop repo st.mapping tip (stopAt_of_known repo st.mapping tip h1)]
  show ({ (replayAll u pats st []).1 with cache := cacheStr (replayAll u pats st []).1.mapping },
      (none : Option Err)) = (st, none)
  rw [show replayAll u pats st [] = (st, none) from rfl, ← h3]

/-! ## Membership of filtered message lines -/

theorem mem_bodyLoop : ∀ (ls : List String) (s p : Bool) (l : String),
    l ∈ bodyLoop ls s p → l ∈ ls ∨ l = "" := by
  intro ls
  induction ls with
  | nil => intro s p l h; simp [bodyLoop] at h
  | cons hd rest ih =>
    intro s p l h
    by_cases hh : hd = ""
    · subst hh
      simp only [bodyLoop, if_true] at h
      rcases ih s true l h with h1 | h1
      · exact Or.inl (List.mem_cons_of_mem _ h1)
      · exact Or.inr h1
    · simp only [bodyLoop] at h
      rw [if_neg hh] at h
      rcases List.mem_append.1 h with h1 | h1
      · by_cases hps : (p && s) = true
        · rw [if_pos hps] at h1
          simp at h1
          exact Or.inr h1
        · rw [if_neg hps] at h1
          simp at h1
      · rcases List.mem_cons.1 h1 with h2 | h2
        · exact Or.inl (h2 ▸ List.mem_cons_self _ _)
        · rcases ih true false l h2 with h3 | h3
          · exact Or.inl (List.mem_cons_of_mem _ h3)
          · exact Or.inr h3

theorem mem_filterMsg (pats : List Pattern) (lines : List String) (id l : String)
    (hl : l ∈ filterMsg pats lines id) : l ∈ lines ∨ l = "" ∨ l = markerLine id := by
  rw [filterMsg] at hl
  rcases List.mem_append.1 hl with h1 | h1
  · rcases mem_bodyLoop _ _ _ _ h1 with h2 | h2
    · rw [keptLines] at h2
      exact Or.inl (List.mem_of_mem_filter h2)
    · exact Or.inr (Or.inl h2)
  · rcases List.mem_cons.1 h1 with h2 | h2
    · exact Or.inr (Or.inl h2)
    · exact Or.inr (Or.inr (by simpa using h2))

/-! ## Claim C1: line dropping in the Message Filter -/

/-- C1 counterexample: with the configured pattern "test" and the line
"tt test" of test_commits_filtering, the line is dropped although no pattern
matches the entire line; so a pattern that matches only a substring does not
drop nothing, contradicting the claim. -/
theorem C1_counterexample :
    dropLine [litCore "test"] "tt test" = true ∧
    ([litCore "test"].any (fun p => p.matchesWhole "tt test")) = false := by
  constructor
  · decide
  · decide

/-- C1 (amended): the Message Filter drops a line exactly when some configured
pattern matches some contiguous substring of the line (regex is_match
semantics); in particular a pattern matching the entire line drops that line,
but a pattern matching only a substring drops the line as well. -/
theorem C1_theorem (pats : List Pattern) (line : String) :
    (dropLine pats line = true ↔
      ∃ p, p ∈ pats ∧ ∃ pre mid suf, pre ++ (mid ++ suf) = line.toList ∧ p.core mid = true) ∧
    (∀ p, p ∈ pats → p.matchesWhole line = true → dropLine pats line = true) := by
  constructor
  · constructor
    · intro h
      rw [dropLine, List.any_eq_true] at h
      obtain ⟨p, hp, hm⟩ := h
      rw [Pattern.isMatch, List.any_eq_true] at hm
      obtain ⟨t, ht, hi⟩ := hm
      rw [List.any_eq_true] at hi
      obtain ⟨i, hit, hcore⟩ := hi
      obtain ⟨s1, hs1⟩ := (List.mem_tails _ _).1 ht
      obtain ⟨s2, hs2⟩ := (List.mem_inits _ _).1 hit
      refine ⟨p, hp, s1, i, s2, ?_, hcore⟩
      rw [hs2]
      exact hs1
    · rintro ⟨p, hp, pre, mid, suf, heq, hcore⟩
      rw [dropLine, List.any_eq_true]
      refine ⟨p, hp, ?_⟩
      rw [Pattern.isMatch, List.any_eq_true]
      refine ⟨mid ++ suf, (List.mem_tails _ _).2 ⟨pre, heq⟩, ?_⟩
      rw [List.any_eq_true]
      exact ⟨mid, (List.mem_inits _ _).2 ⟨suf, rfl⟩, hcore⟩
  · intro p hp hw
    rw [dropLine, List.any_eq_true]
    refine ⟨p, hp, ?_⟩
    rw [Pattern.isMatch, List.any_eq_true]
    refine ⟨line.toList, (List.mem_tails _ _).2 (List.suffix_refl _), ?_⟩
    rw [List.any_eq_true]
    exact ⟨line.toList, (List.mem_inits _ _).2 (List.prefix_refl _), hw⟩

/-- C1 witness: a pattern matching the entire line drops the line. -/
theorem C1_witness : dropLine [litCore "brief"] "brief" = true :=
  (C1_theorem [litCore "brief"] "brief").2 (litCore "brief")
    (List.mem_singleton.2 rfl) (by decide)

/-! ## Claim C2: the rewritten commit message -/

/-- C2 counterexample: replaying a commit whose surviving lines end with a
blank line.  The engine produces one blank line before the marker, not the
two the claim's words (collapse runs, remove leading blanks only, then
append a blank and the marker) would give. -/
theorem C2_counterexample :
    Except.map (fun s => s.locals.map Commit.message) (replayOne false [] st0 cBlank)
      = Except.ok [["a", "", markerLine "rA"]] ∧
    claimedMsg [] cBlank.message cBlank.id = ["a", "", "", markerLine "rA"] ∧
    (["a", "", markerLine "rA"] : List String) ≠ ["a", "", "", markerLine "rA"] := by
  refine ⟨rfl, rfl, ?_⟩
  decide

/-- C2 (amended): the message of a commit the engine replays by plain copy is
the surviving lines in order with runs of blank lines collapsed and leading
and trailing blank lines removed, followed by exactly one blank line and the
marker line, which is the final line. -/
theorem C2_theorem (u : Bool) (pats : List Pattern) (st : State) (c : Commit) (st1 : State)
    (hok : replayOne u pats st c = Except.ok st1)
    (hcopy : missingParents st.mapping c.parents = [])
    (hnup : allParentsUprooted st c = false) :
    ∃ d, st1.locals = d :: st.locals ∧ d.message = specMsg pats c.message c.id ∧
      d.message.getLast? = some (markerLine c.id) := by
  rw [replayOne] at hok
  rw [hcopy] at hok
  simp only [hnup, Bool.false_eq_true, if_false, Except.ok.injEq] at hok
  subst hok
  refine ⟨_, addLocal_locals _ _ _ _, ?_, ?_⟩
  · show filterMsg pats c.message c.id = specMsg pats c.message c.id
    exact filterMsg_eq_specMsg pats c.message c.id
  · show (filterMsg pats c.message c.id).getLast? = some (markerLine c.id)
    rw [filterMsg, show bodyLoop (keptLines pats c.message) false false ++ ["", markerLine c.id]
        = (bodyLoop (keptLines pats c.message) false false ++ [""]) ++ [markerLine c.id] by simp]
    exact List.getLast?_concat _

/-- C2 witness: the amended message law at a concrete replay. -/
theorem C2_witness :
    ∃ d, stBlank1.locals = d :: st0.locals ∧ d.message = specMsg [] cBlank.message cBlank.id ∧
      d.message.getLast? = some (markerLine cBlank.id) :=
  C2_theorem false [] st0 cBlank stBlank1 rfl rfl rfl

/-! ## Claim C3: unknown parents, with and without the uproot option -/

/-- C3: a commit with a parent not in the correspondence map fails the branch
replication with UnknownParent naming the commit and a missing parent when
the uproot option is not set, reported with "cannot be found in the local
repository" and halting with the state unchanged (so no counterpart of the
commit is created); with the uproot option set the same commit is instead
replayed by cherry-pick, entering the map with the uprooted message. -/
theorem C3_theorem (pats : List Pattern) (st : State) (c : Commit) (p : String)
    (hp : p ∈ c.parents) (hm : lookupRemote st.mapping p = none) :
    (∃ q, q ∈ c.parents ∧ lookupRemote st.mapping q = none ∧
      (∀ cs, replayAll false pats st (c :: cs) = (st, some (Err.unknownParent c.id q))) ∧
      containsSub (renderErr (Err.unknownParent c.id q))
        "cannot be found in the local repository" = true) ∧
    (∃ st1 d, replayOne true pats st c = Except.ok st1 ∧
      st1.locals = d :: st.locals ∧ d.message = cherryMsg pats c.message c.id ∧
      (lookupRemote st1.mapping c.id).isSome = true) := by
  have hmem : p ∈ missingParents st.mapping c.parents := by
    rw [missingParents]
    exact List.mem_filter.2 ⟨hp, by simp [hm]⟩
  cases hms : missingParents st.mapping c.parents with
  | nil => rw [hms] at hmem; simp at hmem
  | cons q qs =>
    have hq : q ∈ missingParents st.mapping c.parents := by
      rw [hms]
      exact List.mem_cons_self _ _
    rw [missingParents] at hq
    obtain ⟨hq1, hq2⟩ := List.mem_filter.1 hq
    constructor
    · have hre : replayOne false pats st c = Except.error (Err.unknownParent c.id q) := by
        rw [replayOne]
        rw [hms]
        simp
      refine ⟨q, hq1, by simpa using hq2, ?_, ?_⟩
      · intro cs
        simp [replayAll, hre]
      · exact containsSub_append_self _ _
    · have hro : replayOne true pats st c = Except.ok (addLocal st c.id
          { id := freshId st,
            parents := if (mappedParents st.mapping c.parents).isEmpty then tipParents st
                       else mappedParents st.mapping c.parents,
            message := cherryMsg pats c.message c.id, tree := c.tree } true) := by
        rw [replayOne]
        rw [hms]
        simp
      refine ⟨_, _, hro, addLocal_locals _ _ _ _, rfl, ?_⟩
      rw [addLocal_mapping]
      exact lookupRemote_append_singleton _ _ _

/-- C3 witness: the law at c6 of the uproot scenario, whose parent c4 is
below the bootstrap frontier. -/
theorem C3_witness :
    (∃ q, q ∈ cW6.parents ∧ lookupRemote stW.mapping q = none ∧
      (∀ cs, replayAll false [] stW (cW6 :: cs) = (stW, some (Err.unknownParent cW6.id q))) ∧
      containsSub (renderErr (Err.unknownParent cW6.id q))
        "cannot be found in the local repository" = true) ∧
    (∃ st1 d, replayOne true [] stW cW6 = Except.ok st1 ∧
      st1.locals = d :: stW.locals ∧ d.message = cherryMsg [] cW6.message cW6.id ∧
      (lookupRemote st1.mapping cW6.id).isSome = true) :=
  C3_theorem [] stW cW6 "c4" (by decide) (by decide)

/-! ## Claim C6: dirty working tree aborts before any mutation -/

/-- C6: when the working tree is dirty, both bootstrap and replay fail with
LocalChanges, reported with "Aborted", and the state (commits, references,
cache file) is returned unchanged. -/
theorem C6_theorem (repo : List Commit) (u : Bool) (pats : List Pattern) (tip : String)
    (st : State) (h : st.dirty = true) :
    replicateBranch repo u pats tip st = (st, some Err.localChanges) ∧
    bootstrapRun repo tip st = (st, some Err.localChanges) ∧
    containsSub (renderErr Err.localChanges) "Aborted" = true := by
  refine ⟨?_, ?_, by decide⟩
  · rw [replicateBranch]
    simp [h]
  · rw [bootstrapRun]
    simp [h]

/-- C6 witness: the dirty pre-check at a concrete dirty state. -/
theorem C6_witness :
    replicateBranch [] false [] "master" stDirty = (stDirty, some Err.localChanges) ∧
    bootstrapRun [] "master" stDirty = (stDirty, some Err.localChanges) ∧
    containsSub (renderErr Err.localChanges) "Aborted" = true :=
  C6_theorem [] false [] "master" stDirty rfl

/-! ## Claim C7: the uprooted annotation -/

/-- C7: a commit the engine cherry-picks during an uproot (because a parent is
missing, or because its whole parent chain was cherry-picked) gets the
uprooted message, which carries the annotation line directly before the
final marker line; a commit replayed by plain copy gets the filtered message,
which contains no line with the annotation provided the original message and
the marker line contain none. -/
theorem C7_theorem (u : Bool) (pats : List Pattern) (st : State) (c : Commit) (st1 : State)
    (hok : replayOne u pats st c = Except.ok st1) :
    ((missingParents st.mapping c.parents ≠ [] ∨ allParentsUprooted st c = true) →
      ∃ d, st1.locals = d :: st.locals ∧ d.message = cherryMsg pats c.message c.id ∧
        ∃ pre, d.message = pre ++ ["(uprooted)", markerLine c.id]) ∧
    (missingParents st.mapping c.parents = [] → allParentsUprooted st c = false →
      (∀ l ∈ c.message, containsSub l "(uprooted)" = false) →
      containsSub (markerLine c.id) "(uprooted)" = false →
      ∃ d, st1.locals = d :: st.locals ∧ d.message = filterMsg pats c.message c.id ∧
        ∀ l ∈ d.message, containsSub l "(uprooted)" = false) := by
  rw [replayOne] at hok
  cases hms : missingParents st.mapping c.parents with
  | nil =>
    rw [hms] at hok
    by_cases hu : allParentsUprooted st c = true
    · simp only [hu, if_true, Except.ok.injEq] at hok
      subst hok
      constructor
      · intro _
        refine ⟨_, addLocal_locals _ _ _ _, rfl, ?_⟩
        exact ⟨bodyLoop (keptLines pats c.message) false false ++ [""], by simp [cherryMsg]⟩
      · intro _ hu2 _ _
        rw [hu2] at hu
        simp at hu
    · have hu2 : allParentsUprooted st c = false := by simpa using hu
      simp only [hu2, Bool.false_eq_true, if_false, Except.ok.injEq] at hok
      subst hok
      constructor
      · intro hcontra
        rcases hcontra with h1 | h1
        · exact absurd rfl h1
        · rw [hu2] at h1
          simp at h1
      · intro _ _ hlines hmark
        refine ⟨_, addLocal_locals _ _ _ _, rfl, ?_⟩
        intro l hl
        rcases mem_filterMsg pats c.message c.id l hl with h1 | h1 | h1
        · exact hlines l h1
        · rw [h1]
          decide
        · rw [h1]
          exact hmark
  | cons q qs =>
    rw [hms] at hok
    by_cases huo : u = true
    · simp only [huo, if_true, Except.ok.injEq] at hok
      subst hok
      constructor
      · intro _
        refine ⟨_, addLocal_locals _ _ _ _, rfl, ?_⟩
        exact ⟨bodyLoop (keptLines pats c.message) false false ++ [""], by simp [cherryMsg]⟩
      · intro hnil
        exact absurd hnil (List.cons_ne_nil _ _)
    · have huo2 : u = false := by simpa using huo
      simp only [huo2, Bool.false_eq_true, if_false] at hok
      simp at hok

/-- C7 witness: the annotation law at a concrete cherry-pick and a concrete
plain copy. -/
theorem C7_witness :
    (∃ d, stW6.locals = d :: stW.locals ∧ d.message = cherryMsg [] cW6.message cW6.id ∧
      ∃ pre, d.message = pre ++ ["(uprooted)", markerLine cW6.id]) ∧
    (∃ d, stB2.locals = d :: st0.locals ∧ d.message = filterMsg [] cB2.message cB2.id ∧
      ∀ l ∈ d.message, containsSub l "(uprooted)" = false) :=
  ⟨(C7_theorem true [] stW cW6 stW6 rfl).1 (Or.inl (by decide)),
   (C7_theorem false [] st0 cB2 stB2 rfl).2 rfl rfl (by decide) (by decide)⟩

/-! ## Claim C4: idempotence of replication -/

theorem replicateBranch_of_walk_nil (repo : List Commit) (u : Bool) (pats : List Pattern)
    (tip : String) (st : State) (h2 : st.dirty = false)
    (h3 : st.cache = cacheStr st.mapping) (hw : walk repo st.mapping tip = []) :
    replicateBranch repo u pats tip st = (st, none) := by
  rw [replicateBranch]
  simp only [h2, Bool.false_eq_true, if_false]
  rw [hw]
  show ({ (replayAll u pats st []).1 with
      cache := cacheStr (replayAll u pats st []).1.mapping }, (none : Option Err)) = (st, none)
  rw [show replayAll u pats st [] = (st, none) from rfl, ← h3]

/-- C4: a successful branch replication is idempotent: running it again from
the state it produced changes nothing and reports no error; and on any state
whose map already contains the remote tip (with a clean tree and a cache
file matching the map), replication does nothing. -/
theorem C4_theorem (repo : List Commit) (u : Bool) (pats : List Pattern) (tip : String)
    (st st1 : State) (h : replicateBranch repo u pats tip st = (st1, none)) :
    replicateBranch repo u pats tip st1 = (st1, none) ∧
    ∀ st2 : State, (lookupRemote st2.mapping tip).isSome = true → st2.dirty = false →
      st2.cache = cacheStr st2.mapping → replicateBranch repo u pats tip st2 = (st2, none) := by
  refine ⟨?_, fun st2 a b c => replicateBranch_noop repo u pats tip st2 a b c⟩
  by_cases hd : st.dirty = true
  · rw [replicateBranch] at h
    simp [hd] at h
  · have hd2 : st.dirty = false := by simpa using hd
    rw [replicateBranch] at h
    simp only [hd2, Bool.false_eq_true, if_false] at h
    cases hres : replayAll u pats st (walk repo st.mapping tip) with
    | mk stA res =>
      rw [hres] at h
      cases res with
      | some e => simp at h
      | none =>
        simp only [Prod.mk.injEq, and_true] at h
        subst h
        have hdA : stA.dirty = false := by
          have h5 := replayAll_dirty u pats (walk repo st.mapping tip) st
          rw [hres] at h5
          rw [h5]
          exact hd2
        by_cases hstop : stopAt repo st.mapping tip = true
        · have hw : walk repo st.mapping tip = [] := walk_eq_nil_of_stop _ _ _ hstop
          rw [hw] at hres
          rw [show replayAll u pats st [] = (st, none) from rfl] at hres
          injection hres with h6 h7
          subst h6
          refine replicateBranch_of_walk_nil repo u pats tip _ hd2 rfl ?_
          show walk repo st.mapping tip = []
          exact hw
        · have hstop2 : stopAt repo st.mapping tip = false := by simpa using hstop
          cases hfind : findCommit repo tip with
          | none =>
            have hw : walk repo st.mapping tip = [] :=
              walk_eq_nil_of_none _ _ _ hstop2 hfind
            rw [hw] at hres
            rw [show replayAll u pats st [] = (st, none) from rfl] at hres
            injection hres with h6 h7
            subst h6
            refine replicateBranch_of_walk_nil repo u pats tip _ hd2 rfl ?_
            show walk repo st.mapping tip = []
            exact hw
          | some ctip =>
            have hc : ctip ∈ walk repo st.mapping tip := walk_mem _ _ _ _ hstop2 hfind
            have hsucc : (replayAll u pats st (walk repo st.mapping tip)).2 = none := by
              rw [hres]
            have hlook := replayAll_ok_mapped u pats (walk repo st.mapping tip) st hsucc ctip hc
            rw [hres] at hlook
            rw [findCommit_id repo tip ctip hfind] at hlook
            exact replicateBranch_noop repo u pats tip _ hlook hdA rfl

/-- C4 witness: idempotence of the concrete uproot replication of repoW. -/
theorem C4_witness :
    replicateBranch repoW true [] "c8" (replicateBranch repoW true [] "c8" stW).1
        = ((replicateBranch repoW true [] "c8" stW).1, none) ∧
    ∀ st2 : State, (lookupRemote st2.mapping "c8").isSome = true → st2.dirty = false →
      st2.cache = cacheStr st2.mapping → replicateBranch repoW true [] "c8" st2 = (st2, none) := by
  have h2 : (replicateBranch repoW true [] "c8" stW).2 = none := by rfl
  have h : replicateBranch repoW true [] "c8" stW
      = ((replicateBranch repoW true [] "c8" stW).1, none) := by
    rw [← h2]
  exact C4_theorem repoW true [] "c8" stW _ h

/-! ## Claim C5: the cache file after a successful replication -/

/-- C5: after a successful branch replication from a consistent state, the
cache file is again exactly the newline-terminated rendering of the ordered
insertion list, every mapped local id resolves to a stored local commit
bearing a rip-it marker, and the prior cache contents are preserved as a
prefix. -/
theorem C5_theorem (repo : List Commit) (u : Bool) (pats : List Pattern) (tip : String)
    (st st1 : State) (h : replicateBranch repo u pats tip st = (st1, none))
    (hwf : WFState st) :
    WFState st1 ∧ ∃ t, st1.cache = st.cache ++ t := by
  by_cases hd : st.dirty = true
  · rw [replicateBranch] at h
    simp [hd] at h
  · have hd2 : st.dirty = false := by simpa using hd
    rw [replicateBranch] at h
    simp only [hd2, Bool.false_eq_true, if_false] at h
    cases hres : replayAll u pats st (walk repo st.mapping tip) with
    | mk stA res =>
      rw [hres] at h
      cases res with
      | some e => simp at h
      | none =>
        simp only [Prod.mk.injEq, and_true] at h
        subst h
        have hresolve : Resolved stA := by
          have h5 := replayAll_resolve u pats (walk repo st.mapping tip) st hwf.2
          rw [hres] at h5
          exact h5
        refine ⟨⟨rfl, fun e he => hresolve e he⟩, ?_⟩
        obtain ⟨N, hN⟩ := replayAll_mapping u pats (walk repo st.mapping tip) st
        rw [hres] at hN
        refine ⟨cacheStr N, ?_⟩
        show cacheStr stA.mapping = st.cache ++ cacheStr N
        rw [show stA.mapping = st.mapping ++ N from hN, cacheStr_append, hwf.1]

/-- C5 witness: the cache law at the concrete uproot replication of repoW. -/
theorem C5_witness :
    WFState (replicateBranch repoW true [] "c8" stW).1 ∧
    ∃ t, (replicateBranch repoW true [] "c8" stW).1.cache = stW.cache ++ t := by
  have h2 : (replicateBranch repoW true [] "c8" stW).2 = none := by rfl
  have h : replicateBranch repoW true [] "c8" stW
      = ((replicateBranch repoW true [] "c8" stW).1, none) := by
    rw [← h2]
  exact C5_theorem repoW true [] "c8" stW _ h
    (by unfold WFState Resolved; exact ⟨by decide, by decide⟩)

/-! ## Claim C8: the configured branch list -/

/-- C8 counterexample: a configuration whose branches field is present but
empty.  parse_args falls back to the legacy branch default master, so the
resulting branch list is not the configured (empty) list, contradicting the
claim that only an absent field triggers the fallback. -/
theorem C8_counterexample :
    Except.map (fun o => o.branches.map Branch.name)
      (parse_args mCli oFok (pYof cfgEmptyBranches) rNok) = Except.ok ["master"] ∧
    cfgEmptyBranches.branches = some [] ∧
    (["master"] : List String) ≠ ([] : List String) := by
  refine ⟨rfl, rfl, ?_⟩
  decide

/-- C8 (amended): for every accepted configuration, Options.branches is the
configured branches list when that list is present and non-empty; otherwise
it is the one-element list holding the legacy branch field's value, with
master as the default; and every branch's refname is refs/heads/ followed by
its name. -/
theorem C8_theorem (m : CliMatches) (oF : String → Except String String)
    (pY : String → Except String YamlCfg) (rN : List String → Except String RegexSet)
    (f : String) (cfg : YamlCfg) (opts : Options)
    (hopen : oF m.config_file = Except.ok f) (hparse : pY f = Except.ok cfg)
    (hok : parse_args m oF pY rN = Except.ok opts) :
    opts.branches.map Branch.name =
      (if (cfg.branches.getD []).isEmpty then [cfg.branch.getD "master"]
       else cfg.branches.getD []) ∧
    ∀ b ∈ opts.branches, b.refname = "refs/heads/" ++ b.name := by
  simp only [parse_args, hopen, hparse] at hok
  cases hr : rN (cfg.filters.getD []) with
  | error e =>
    rw [hr] at hok
    simp at hok
  | ok rs =>
    rw [hr] at hok
    simp only [Except.ok.injEq] at hok
    subst hok
    constructor
    · show ((if (cfg.branches.getD []).isEmpty then [cfg.branch.getD "master"]
          else cfg.branches.getD []).map
            (fun name => Branch.mk name ("refs/heads/" ++ name))).map Branch.name = _
      rw [List.map_map]
      rw [show (Branch.name ∘ fun name => Branch.mk name ("refs/heads/" ++ name))
          = fun n : String => n from rfl]
      exact List.map_id' _
    · intro b hb
      simp only [List.mem_map] at hb
      obtain ⟨n, -, h2⟩ := hb
      rw [← h2]

/-- C8 witness: a two-element configured branch list is used as given, with
the refs/heads/ reference paths. -/
theorem C8_witness :
    ∃ opts, parse_args mCli oFok (pYof cfgTwoBranches) rNok = Except.ok opts ∧
      opts.branches.map Branch.name = ["b1", "b2"] ∧
      ∀ b ∈ opts.branches, b.refname = "refs/heads/" ++ b.name := by
  refine ⟨_, rfl, ?_⟩
  exact C8_theorem mCli oFok (pYof cfgTwoBranches) rNok "" cfgTwoBranches _ rfl rfl rfl

/-! ## Claim C9: configuration failures surface as the matching error -/

/-- C9: parse_args fails with FailedOpenCfg carrying the path when the file
cannot be opened, FailedParseCfg when it cannot be parsed as YAML,
InvalidConfig on field filter when the regex set does not compile, and
returns Ok whenever all three steps succeed. -/
theorem C9_theorem (m : CliMatches) (oF : String → Except String String)
    (pY : String → Except String YamlCfg) (rN : List String → Except String RegexSet) :
    (∀ e, oF m.config_file = Except.error e →
      parse_args m oF pY rN = Except.error (CfgError.failedOpenCfg m.config_file)) ∧
    (∀ f e, oF m.config_file = Except.ok f → pY f = Except.error e →
      parse_args m oF pY rN = Except.error (CfgError.failedParseCfg m.config_file)) ∧
    (∀ f cfg e, oF m.config_file = Except.ok f → pY f = Except.ok cfg →
      rN (cfg.filters.getD []) = Except.error e →
      parse_args m oF pY rN = Except.error (CfgError.invalidConfig "filter")) ∧
    (∀ f cfg rs, oF m.config_file = Except.ok f → pY f = Except.ok cfg →
      rN (cfg.filters.getD []) = Except.ok rs →
      ∃ opts, parse_args m oF pY rN = Except.ok opts) := by
  refine ⟨?_, ?_, ?_, ?_⟩
  · intro e he
    simp [parse_args, he]
  · intro f e h1 h2
    simp [parse_args, h1, h2]
  · intro f cfg e h1 h2 h3
    simp [parse_args, h1, h2, h3]
  · intro f cfg rs h1 h2 h3
    have h4 : parse_args m oF pY rN = Except.ok
        { repo := cfg.repo.getD ".", remote := cfg.remote,
          branches := ((if (cfg.branches.getD []).isEmpty then [cfg.branch.getD "master"]
              else cfg.branches.getD []).map
            (fun name => Branch.mk name ("refs/heads/" ++ name))),
          commit_msg_filters := rs, bootstrap := m.bootstrap, uproot := m.uproot,
          verbose := !m.quiet, yes := m.yes, fetch := !m.nofetch } := by
      simp [parse_args, h1, h2, h3]
    exact ⟨_, h4⟩

/-- C9 witness: each of the four outcomes at concrete oracles. -/
theorem C9_witness :
    parse_args mCli oFbad (pYof cfgBare) rNok
        = Except.error (CfgError.failedOpenCfg mCli.config_file) ∧
    parse_args mCli oFok pYbad rNok
        = Except.error (CfgError.failedParseCfg mCli.config_file) ∧
    parse_args mCli oFok (pYof cfgBare) rNbad
        = Except.error (CfgError.invalidConfig "filter") ∧
    ∃ opts, parse_args mCli oFok (pYof cfgBare) rNok = Except.ok opts :=
  ⟨(C9_theorem mCli oFbad (pYof cfgBare) rNok).1 "no such file" rfl,
   (C9_theorem mCli oFok pYbad rNok).2.1 "" "invalid yaml" rfl rfl,
   (C9_theorem mCli oFok (pYof cfgBare) rNbad).2.2.1 "" cfgBare "invalid regex" rfl rfl rfl,
   (C9_theorem mCli oFok (pYof cfgBare) rNok).2.2.2 "" cfgBare (RegexSet.mk []) rfl rfl rfl⟩

/-! ## Claim C10: the confirmation prompt -/

theorem indecisive_line (t : String) (h : indecisiveB (InEvent.line t) = true) :
    ¬(trimStr t = "y" ∨ trimStr t = "Y") ∧ ¬(trimStr t = "n" ∨ trimStr t = "N") := by
  simp only [indecisiveB, Bool.not_eq_eq_eq_not, Bool.not_true, Bool.or_eq_false_iff,
    beq_eq_false_iff_ne, ne_eq] at h
  obtain ⟨⟨⟨h1, h2⟩, h3⟩, h4⟩ := h
  constructor
  · rintro (h5 | h5)
    · exact h1 h5
    · exact h2 h5
  · rintro (h5 | h5)
    · exact h3 h5
    · exact h4 h5

theorem confirm_action_of_yes : ∀ (pre : List InEvent) (s : String) (rest : List InEvent),
    (trimStr s = "y" ∨ trimStr s = "Y") → (∀ e ∈ pre, indecisiveB e = true) →
    confirm_action (pre ++ InEvent.line s :: rest) = some true := by
  intro pre
  induction pre with
  | nil =>
    intro s rest hys _
    show confirm_action (InEvent.line s :: rest) = some true
    rw [confirm_action, if_pos hys]
  | cons e pre ih =>
    intro s rest hys hind
    have he := hind e (List.mem_cons_self _ _)
    cases e with
    | err => simp [indecisiveB] at he
    | line t =>
      obtain ⟨ht1, ht2⟩ := indecisive_line t he
      show confirm_action (InEvent.line t :: (pre ++ InEvent.line s :: rest)) = some true
      rw [confirm_action, if_neg ht1, if_neg ht2]
      exact ih s rest hys (fun e2 he2 => hind e2 (List.mem_cons_of_mem _ he2))

theorem confirm_action_true_decompose : ∀ evts : List InEvent,
    confirm_action evts = some true →
    ∃ pre s rest, evts = pre ++ InEvent.line s :: rest ∧ (trimStr s = "y" ∨ trimStr s = "Y") ∧
      ∀ e ∈ pre, indecisiveB e = true := by
  intro evts
  induction evts with
  | nil => intro h; simp [confirm_action] at h
  | cons e rest ih =>
    intro h
    cases e with
    | err => simp [confirm_action] at h
    | line s =>
      by_cases hy : trimStr s = "y" ∨ trimStr s = "Y"
      · exact ⟨[], s, rest, rfl, hy, by simp⟩
      · by_cases hn : trimStr s = "n" ∨ trimStr s = "N"
        · rw [confirm_action, if_neg hy, if_pos hn] at h
          simp at h
        · rw [confirm_action, if_neg hy, if_neg hn] at h
          obtain ⟨pre, s1, rest1, heq, hys, hind⟩ := ih h
          refine ⟨InEvent.line s :: pre, s1, rest1, by rw [List.cons_append, heq], hys, ?_⟩
          intro e he
          rcases List.mem_cons.1 he with he1 | he1
          · subst he1
            obtain ⟨hy1, hy2⟩ := not_or.1 hy
            obtain ⟨hn1, hn2⟩ := not_or.1 hn
            simp [indecisiveB, hy1, hy2, hn1, hn2]
          · exact hind e he1

/-- C10: confirm_action returns true exactly when, after a possibly empty run
of indecisive input lines that only re-prompt, a read line trims to y or Y;
a read failure returns false; a line trimming to n or N returns false; and an
indecisive line leaves the outcome to the remaining input, so no input other
than y or Y can ever cause confirmation. -/
theorem C10_theorem :
    (∀ evts : List InEvent, confirm_action evts = some true ↔
      ∃ pre s rest, evts = pre ++ InEvent.line s :: rest ∧ (trimStr s = "y" ∨ trimStr s = "Y") ∧
        ∀ e ∈ pre, indecisiveB e = true) ∧
    (∀ rest : List InEvent, confirm_action (InEvent.err :: rest) = some false) ∧
    (∀ (s : String) (rest : List InEvent), (trimStr s = "n" ∨ trimStr s = "N") →
      confirm_action (InEvent.line s :: rest) = some false) ∧
    (∀ (s : String) (rest : List InEvent), indecisiveB (InEvent.line s) = true →
      confirm_action (InEvent.line s :: rest) = confirm_action rest) := by
  refine ⟨?_, ?_, ?_, ?_⟩
  · intro evts
    constructor
    · exact confirm_action_true_decompose evts
    · rintro ⟨pre, s, rest, rfl, hys, hind⟩
      exact confirm_action_of_yes pre s rest hys hind
  · intro rest
    rfl
  · intro s rest hn
    rw [confirm_action, if_neg ?_, if_pos hn]
    rintro (hy | hy) <;> rcases hn with hn | hn <;> simp [hy] at hn
  · intro s rest hind
    obtain ⟨h1, h2⟩ := indecisive_line s hind
    rw [confirm_action, if_neg h1, if_neg h2]

/-- C10 witness: the prompt law at concrete input sequences. -/
theorem C10_witness :
    confirm_action [InEvent.line "maybe", InEvent.line "y"] = some true ∧
    confirm_action [InEvent.err] = some false ∧
    confirm_action [InEvent.line " N ", InEvent.line "y"] = some false ∧
    confirm_action [InEvent.line "maybe", InEvent.err] = confirm_action [InEvent.err] :=
  ⟨(C10_theorem.1 _).2 ⟨[InEvent.line "maybe"], "y", [], rfl, Or.inl (by decide), by decide⟩,
   C10_theorem.2.1 [],
   C10_theorem.2.2.1 " N " [InEvent.line "y"] (Or.inr (by decide)),
   C10_theorem.2.2.2 "maybe" [InEvent.err] (by decide)⟩

end Ripit
